import Mathlib

/-!
Verification of the DMG machine model: bus fabric, SM83 CPU cycle machine,
PPU pixel fetcher, and the read-only device wrapper, embedded shallowly from
the Rust sources of the emulator.
-/

namespace GB

/-! ## Machine fabric: devices and bus

The address-decoding bus comes from the external `remus` crate, whose source
is not in the repository sample; its behaviour is modelled from the spec.
The device table, mapping order and sizes are translated from
`GameBoy::reset` in `src/model/dmg/mod.rs`.
-/

/-- The embedded 256-byte boot ROM image, byte for byte from the `BOOTROM`
constant in `src/model/dmg/mod.rs`. -/
def BOOTROM : List Nat := [
  0x31, 0xfe, 0xff, 0xaf, 0x21, 0xff, 0x9f, 0x32, 0xcb, 0x7c, 0x20, 0xfb, 0x21, 0x26, 0xff, 0x0e,
  0x11, 0x3e, 0x80, 0x32, 0xe2, 0x0c, 0x3e, 0xf3, 0xe2, 0x32, 0x3e, 0x77, 0x77, 0x3e, 0xfc, 0xe0,
  0x47, 0x11, 0x04, 0x01, 0x21, 0x10, 0x80, 0x1a, 0xcd, 0x95, 0x00, 0xcd, 0x96, 0x00, 0x13, 0x7b,
  0xfe, 0x34, 0x20, 0xf3, 0x11, 0xd8, 0x00, 0x06, 0x08, 0x1a, 0x13, 0x22, 0x23, 0x05, 0x20, 0xf9,
  0x3e, 0x19, 0xea, 0x10, 0x99, 0x21, 0x2f, 0x99, 0x0e, 0x0c, 0x3d, 0x28, 0x08, 0x32, 0x0d, 0x20,
  0xf9, 0x2e, 0x0f, 0x18, 0xf3, 0x67, 0x3e, 0x64, 0x57, 0xe0, 0x42, 0x3e, 0x91, 0xe0, 0x40, 0x04,
  0x1e, 0x02, 0x0e, 0x0c, 0xf0, 0x44, 0xfe, 0x90, 0x20, 0xfa, 0x0d, 0x20, 0xf7, 0x1d, 0x20, 0xf2,
  0x0e, 0x13, 0x24, 0x7c, 0x1e, 0x83, 0xfe, 0x62, 0x28, 0x06, 0x1e, 0xc1, 0xfe, 0x64, 0x20, 0x06,
  0x7b, 0xe2, 0x0c, 0x3e, 0x87, 0xe2, 0xf0, 0x42, 0x90, 0xe0, 0x42, 0x15, 0x20, 0xd2, 0x05, 0x20,
  0x4f, 0x16, 0x20, 0x18, 0xcb, 0x4f, 0x06, 0x04, 0xc5, 0xcb, 0x11, 0x17, 0xc1, 0xcb, 0x11, 0x17,
  0x05, 0x20, 0xf5, 0x22, 0x23, 0x22, 0x23, 0xc9, 0xce, 0xed, 0x66, 0x66, 0xcc, 0x0d, 0x00, 0x0b,
  0x03, 0x73, 0x00, 0x83, 0x00, 0x0c, 0x00, 0x0d, 0x00, 0x08, 0x11, 0x1f, 0x88, 0x89, 0x00, 0x0e,
  0xdc, 0xcc, 0x6e, 0xe6, 0xdd, 0xdd, 0xd9, 0x99, 0xbb, 0xbb, 0x67, 0x63, 0x6e, 0x0e, 0xec, 0xcc,
  0xdd, 0xdc, 0x99, 0x9f, 0xbb, 0xb9, 0x33, 0x3e, 0x3c, 0x42, 0xb9, 0xa5, 0xb9, 0xa5, 0x42, 0x3c,
  0x21, 0x04, 0x01, 0x11, 0xa8, 0x00, 0x1a, 0x13, 0xbe, 0x20, 0xfe, 0x23, 0x7d, 0xfe, 0x34, 0x20,
  0xf5, 0x06, 0x19, 0x78, 0x86, 0x23, 0x05, 0x20, 0xfb, 0x86, 0x20, 0xfe, 0x3e, 0x01, 0xe0, 0x50]

/-- Backing stores of every memory-mapped device of the machine, one field
per device object created in `Devices`, `IoDevices` and `Cartridge` of
`src/model/dmg/mod.rs`.  Each store is a byte function over device-local
indices. -/
structure DmgState where
  boot : Nat → Nat
  rom : Nat → Nat
  vram : Nat → Nat
  eram : Nat → Nat
  wram : Nat → Nat
  oam : Nat → Nat
  hram : Nat → Nat
  con : Nat → Nat
  com : Nat → Nat
  timer : Nat → Nat
  iflag : Nat → Nat
  sound : Nat → Nat
  wave : Nat → Nat
  lcd : Nat → Nat
  bank : Nat → Nat
  ie : Nat → Nat

/-- Store a byte at one index of a backing store. -/
def setb (f : Nat → Nat) (i v : Nat) : Nat → Nat :=
  fun j => if j = i then v % 256 else f j

/-- Devices mapped on the inner I/O bus (the `IoDevices` table). -/
inductive IoDev where
  | con | com | timer | iflag | sound | wave | lcd | bank

/-- Length of each I/O device, from the `Register` and `Memory` type sizes in
`IoDevices`. -/
def ioSize : IoDev → Nat
  | .con => 0x01
  | .com => 0x02
  | .timer => 0x04
  | .iflag => 0x01
  | .sound => 0x17
  | .wave => 0x10
  | .lcd => 0x0c
  | .bank => 0x01

/-- The inner I/O bus map, in the mapping order of `IoDevices::reset`. -/
def ioEntries : List (Nat × IoDev) :=
  [(0x00, .con), (0x01, .com), (0x04, .timer), (0x0f, .iflag),
   (0x10, .sound), (0x30, .wave), (0x40, .lcd), (0x50, .bank)]

/-- Read one I/O device at a local index. -/
def ioDevRead (s : DmgState) : IoDev → Nat → Nat
  | .con, i => s.con i
  | .com, i => s.com i
  | .timer, i => s.timer i
  | .iflag, i => s.iflag i
  | .sound, i => s.sound i
  | .wave, i => s.wave i
  | .lcd, i => s.lcd i
  | .bank, i => s.bank i

/-- Write one I/O device at a local index. -/
def ioDevWrite (s : DmgState) : IoDev → Nat → Nat → DmgState
  | .con, i, v => { s with con := setb s.con i v }
  | .com, i, v => { s with com := setb s.com i v }
  | .timer, i, v => { s with timer := setb s.timer i v }
  | .iflag, i, v => { s with iflag := setb s.iflag i v }
  | .sound, i, v => { s with sound := setb s.sound i v }
  | .wave, i, v => { s with wave := setb s.wave i v }
  | .lcd, i, v => { s with lcd := setb s.lcd i v }
  | .bank, i, v => { s with bank := setb s.bank i v }

/-- Whether some I/O sub-entry decodes the given inner-bus index.
Modelled from the spec: a bus delegates an index when an installed entry
whose base is below it holds the offset. -/
def ioHolds (i : Nat) : Bool :=
  ioEntries.any fun e => decide (e.1 ≤ i) && decide (i - e.1 < ioSize e.2)

/-- Read the inner I/O bus at a local index.
Modelled from the spec: last-mapped entry wins for reads, unmapped gaps
return 0xFF. -/
def ioRead (s : DmgState) (i : Nat) : Nat :=
  ioEntries.foldl
    (fun acc e => if e.1 ≤ i ∧ i - e.1 < ioSize e.2 then ioDevRead s e.2 (i - e.1) else acc)
    0xFF

/-- Write the inner I/O bus at a local index.
Modelled from the spec: writes fan out to every matching entry. -/
def ioWrite (s : DmgState) (i v : Nat) : DmgState :=
  ioEntries.foldl
    (fun st e => if e.1 ≤ i ∧ i - e.1 < ioSize e.2 then ioDevWrite st e.2 (i - e.1) v else st)
    s

/-- Devices mapped on the outer CPU bus by `GameBoy::reset`. -/
inductive Dev where
  | boot | rom | vram | eram | wram | oam | io | hram | ie

/-- Length of each outer device, from the `Memory` and `Register` type sizes
in `Devices` and `Cartridge`. -/
def devSize : Dev → Nat
  | .boot => 0x0100
  | .rom => 0x8000
  | .vram => 0x2000
  | .eram => 0x2000
  | .wram => 0x2000
  | .oam => 0x00a0
  | .io => 0x80
  | .hram => 0x007f
  | .ie => 0x0001

/-- Whether a device holds a local index: plain devices by their length, the
nested I/O bus by its own decode. -/
def devHolds : Dev → Nat → Prop
  | .io, i => ioHolds i = true
  | d, i => i < devSize d

instance (d : Dev) (i : Nat) : Decidable (devHolds d i) := by
  cases d <;> simp only [devHolds] <;> infer_instance

/-- Read one outer device at a local index. -/
def devRead (s : DmgState) : Dev → Nat → Nat
  | .boot, i => s.boot i
  | .rom, i => s.rom i
  | .vram, i => s.vram i
  | .eram, i => s.eram i
  | .wram, i => s.wram i
  | .oam, i => s.oam i
  | .io, i => ioRead s i
  | .hram, i => s.hram i
  | .ie, i => s.ie i

/-- Write one outer device at a local index. -/
def devWrite (s : DmgState) : Dev → Nat → Nat → DmgState
  | .boot, i, v => { s with boot := setb s.boot i v }
  | .rom, i, v => { s with rom := setb s.rom i v }
  | .vram, i, v => { s with vram := setb s.vram i v }
  | .eram, i, v => { s with eram := setb s.eram i v }
  | .wram, i, v => { s with wram := setb s.wram i v }
  | .oam, i, v => { s with oam := setb s.oam i v }
  | .io, i, v => ioWrite s i v
  | .hram, i, v => { s with hram := setb s.hram i v }
  | .ie, i, v => { s with ie := setb s.ie i v }

/-- The outer bus map: bases and devices in the exact mapping order of
`GameBoy::reset` (the boot overlay first, then cartridge ROM, then the rest). -/
def dmgEntries : List (Nat × Dev) :=
  [(0x0000, .boot), (0x0000, .rom), (0x8000, .vram), (0xa000, .eram),
   (0xc000, .wram), (0xe000, .wram), (0xfe00, .oam), (0xff00, .io),
   (0xff80, .hram), (0xffff, .ie)]

/-- Linear scan of bus entries keeping the latest match.
Modelled from the spec: last-mapped wins for reads, unmapped addresses
return the accumulator default. -/
def busReadGo (s : DmgState) (a : Nat) : List (Nat × Dev) → Nat → Nat
  | [], acc => acc
  | e :: es, acc =>
    busReadGo s a es (if e.1 ≤ a ∧ devHolds e.2 (a - e.1) then devRead s e.2 (a - e.1) else acc)

/-- Linear scan of bus entries applying every matching write.
Modelled from the spec: writes fan out to every matching device. -/
def busWriteGo (a v : Nat) : List (Nat × Dev) → DmgState → DmgState
  | [], s => s
  | e :: es, s =>
    busWriteGo a v es (if e.1 ≤ a ∧ devHolds e.2 (a - e.1) then devWrite s e.2 (a - e.1) v else s)

/-- Bus read at a CPU address on the machine map. -/
def GameBoy.read (s : DmgState) (a : Nat) : Nat :=
  busReadGo s a dmgEntries 0xFF

/-- Bus write at a CPU address on the machine map. -/
def GameBoy.write (s : DmgState) (a v : Nat) : DmgState :=
  busWriteGo a v dmgEntries s

/-- Machine state after `GameBoy::new` / `reset`: the boot store holds the
embedded boot ROM (`Devices::reset`), every other store is zeroed
(`Default`). -/
def resetState : DmgState where
  boot := fun i => BOOTROM.getD i 0
  rom := fun _ => 0
  vram := fun _ => 0
  eram := fun _ => 0
  wram := fun _ => 0
  oam := fun _ => 0
  hram := fun _ => 0
  con := fun _ => 0
  com := fun _ => 0
  timer := fun _ => 0
  iflag := fun _ => 0
  sound := fun _ => 0
  wave := fun _ => 0
  lcd := fun _ => 0
  bank := fun _ => 0
  ie := fun _ => 0

/-! ## SM83 CPU

Translated from `core/src/hw/cpu/sm83/mod.rs`.  The CPU is generic over its
bus, exactly as the Rust `Cpu` holds an opaque shared `Bus`: the bus is a
state type `β` with read and write functions.  The instruction set
(`mod inst`) is not part of the repository sample, so `Inst` is abstract: a
micro-op is a function on the CPU fields an instruction may touch
(registers, bus, IME, run status and the halt-bug flag — per the spec,
instructions issue bus transactions and update registers, and interrupt
sampling happens only at the cycle boundary, so micro-ops do not reach the
PIC or the execution state). -/

/-- CPU internal register set, from `Registers`.  All values are machine
words held as naturals below their width. -/
structure Registers where
  a : Nat
  f : Nat
  b : Nat
  c : Nat
  d : Nat
  e : Nat
  h : Nat
  l : Nat
  sp : Nat
  pc : Nat

/-- The 16-bit AF paired view, getter: `(a << 8) | f`. -/
def Registers.afGet (r : Registers) : Nat :=
  (r.a <<< 8) ||| r.f

/-- The 16-bit AF paired view, setter from the `af : WideRegister` closure:
`a := (af & 0xff00) >> 8; f := af & 0x00ff`. -/
def Registers.afSet (r : Registers) (af : Nat) : Registers :=
  { r with a := (af &&& 0xff00) >>> 8, f := af &&& 0x00ff }

/-- CPU interrupt master enable, from `enum Ime`. -/
inductive Ime where
  | Disabled | Enabled | WillEnable
deriving DecidableEq

/-- CPU run status, from `enum Status`. -/
inductive Status where
  | Enabled | Halted | Stopped
deriving DecidableEq

/-- Programmable interrupt controller registers.
Modelled from the spec: the `hw/pic` module is not in the repository
sample; per the spec the PIC is the pair of 8-bit IE and IF registers. -/
structure Pic where
  ie : Nat
  iflag : Nat

/-- Index of the lowest set bit of a natural number (0 on 0). -/
def lowBit (m : Nat) : Nat :=
  if m = 0 then 0
  else if m % 2 = 1 then 0
  else lowBit (m / 2) + 1
termination_by m
decreasing_by omega

/-- Pending interrupt query.
Modelled from the spec: returns the lowest bit set in `IE & IF`, or none. -/
def Pic.int (p : Pic) : Option Nat :=
  if p.ie &&& p.iflag = 0 then none else some (lowBit (p.ie &&& p.iflag))

/-- Interrupt acknowledge.
Modelled from the spec: clears the IF bit of the acknowledged source. -/
def Pic.ack (p : Pic) (src : Nat) : Pic :=
  { p with iflag := if p.iflag.testBit src then p.iflag - 2 ^ src else p.iflag }

/-- The CPU fields an instruction micro-op may read and write: registers,
bus, IME, run status and the halt-bug flag. -/
structure Core (β : Type) where
  regs : Registers
  bus : β
  ime : Ime
  status : Status
  halt_bug : Bool

/-- An instruction in mid-execution: one micro-op that transforms the core
and yields the rest of the instruction, if any (the shape of
`Instruction::exec` returning `Option<Instruction>`). -/
inductive Inst (β : Type) where
  | mk (exec : Core β → Core β × Option (Inst β))

/-- Run one micro-op of an instruction. -/
def Inst.exec : Inst β → Core β → Core β × Option (Inst β)
  | .mk f, c => f c

/-- CPU execution state, from `enum State`. -/
inductive State (β : Type) where
  | Fetch
  | Execute (inst : Inst β)
  | Done

/-- SM83 central processing unit, from `struct Cpu`: the instruction-visible
core plus the PIC handle and the execution state. -/
structure Cpu (β : Type) where
  core : Core β
  pic : Pic
  state : State β

/-- Fetch the next byte after PC (`Cpu::fetchbyte`): read at PC, then
wrapping-increment PC. -/
def fetchbyte (rd : β → Nat → Nat) (c : Core β) : Nat × Core β :=
  let byte := rd c.bus c.regs.pc
  (byte, { c with regs := { c.regs with pc := (c.regs.pc + 1) % 65536 } })

/-- Fetch the next word after PC (`Cpu::fetchword`): two byte reads at PC in
little-endian order, each followed by a wrapping PC increment. -/
def fetchword (rd : β → Nat → Nat) (c : Core β) : Nat × Core β :=
  let w0 := rd c.bus c.regs.pc
  let pc1 := (c.regs.pc + 1) % 65536
  let w1 := rd c.bus pc1
  (w0 + 256 * w1, { c with regs := { c.regs with pc := (pc1 + 1) % 65536 } })

/-- Pop the word at SP (`Cpu::popword`): read low then high byte, each read
followed by a wrapping SP increment; combine little-endian. -/
def popword (rd : β → Nat → Nat) (c : Core β) : Nat × Core β :=
  let w0 := rd c.bus c.regs.sp
  let sp1 := (c.regs.sp + 1) % 65536
  let w1 := rd c.bus sp1
  (w0 + 256 * w1, { c with regs := { c.regs with sp := (sp1 + 1) % 65536 } })

/-- Push a word at SP (`Cpu::pushword`): wrapping-decrement SP, write the
high byte, wrapping-decrement SP, write the low byte. -/
def pushword (wr : β → Nat → Nat → β) (c : Core β) (w : Nat) : Core β :=
  let sp1 := (c.regs.sp + 65535) % 65536
  let b1 := wr c.bus sp1 (w / 256)
  let sp2 := (sp1 + 65535) % 65536
  let b2 := wr b1 sp2 (w % 256)
  { c with regs := { c.regs with sp := sp2 }, bus := b2 }

/-- The `State::Done` arm of `State::exec`: with IME enabled and a pending
interrupt, acknowledge it and enter `Execute` of the interrupt-service
instruction (`iint`); otherwise proceed to `Fetch`. -/
def doneStep (iint : Nat → Inst β) (c : Cpu β) : Cpu β :=
  match c.state with
  | .Done =>
    match c.core.ime with
    | .Enabled =>
      match c.pic.int with
      | some n => { c with pic := c.pic.ack n, state := .Execute (iint n) }
      | none => { c with state := .Fetch }
    | _ => { c with state := .Fetch }
  | _ => c

/-- The `State::Fetch` arm of `State::exec`: fetch the opcode byte at PC,
decode it (`inew` stands for `Instruction::new`), roll PC back and clear the
flag when the halt bug is armed, promote `WillEnable` to `Enabled`, and
enter `Execute`. -/
def fetchStep (rd : β → Nat → Nat) (inew : Nat → Inst β) (c : Cpu β) : Cpu β :=
  match c.state with
  | .Fetch =>
    let r := fetchbyte rd c.core
    let core1 := r.2
    let inst := inew r.1
    let core2 :=
      if core1.halt_bug then
        { core1 with
          regs := { core1.regs with pc := (core1.regs.pc + 65535) % 65536 },
          halt_bug := false }
      else core1
    let core3 :=
      match core2.ime with
      | .WillEnable => { core2 with ime := .Enabled }
      | _ => core2
    { c with core := core3, state := .Execute inst }
  | _ => c

/-- The `State::Execute` arm of `State::exec`: run one micro-op; stay in
`Execute` while micro-ops remain, else proceed to `Done`. -/
def execStep (c : Cpu β) : Cpu β :=
  match c.state with
  | .Execute inst =>
    let r := inst.exec c.core
    { c with
      core := r.1,
      state := match r.2 with | some i => .Execute i | none => .Done }
  | _ => c

/-- One machine cycle (`Machine::cycle` calling `State::exec`): the three
arms run in sequence on the evolving state, exactly as the three sequential
`if let` blocks of the Rust function. -/
def cycle (rd : β → Nat → Nat) (inew iint : Nat → Inst β) (c : Cpu β) : Cpu β :=
  execStep (fetchStep rd inew (doneStep iint c))

/-! ## PPU pixel pipeline

Translated from `src/model/dmg/ppu/pixel.rs`.  The `Ppu` struct and the
`Lcdc` register flags live in the PPU module that is not part of the
repository sample; the fetcher only ever reads them, so they are modelled
from the spec as a record of VRAM plus the scanline configuration. -/

/-- Pixel colour index, from `enum Colour`. -/
inductive Colour where
  | C0 | C1 | C2 | C3
deriving DecidableEq

/-- Pixel palette selector, from `enum Palette`. -/
inductive Palette where
  | BgWin | Obj0 | Obj1
deriving DecidableEq

/-- A pixel record, from `struct Pixel`. -/
structure Pixel where
  colour : Colour
  palette : Palette
deriving DecidableEq

/-- Map a 2-bit value to a colour, from the `match` inside `TileRow::from`
(values are always below 4; the final arm is the unreachable default). -/
def colourOf : Nat → Colour
  | 0 => .C0
  | 1 => .C1
  | 2 => .C2
  | _ => .C3

/-- Decode a tile row from its two data bytes, byte for byte from
`TileRow::from`: for bit positions 0 through 7 in that order, the colour is
the bit of `bytes[0]` (data0) shifted up one, or-ed with the bit of
`bytes[1]` (data1); every pixel carries the background palette. -/
def TileRow.ofBytes (data0 data1 : Nat) : List Pixel :=
  (List.range 8).map fun bit =>
    { colour := colourOf (2 * (if data0.testBit bit then 1 else 0)
        + (if data1.testBit bit then 1 else 0)),
      palette := .BgWin }

/-- The scanline configuration the fetcher reads.
Modelled from the spec: the PPU owns an 8 KiB VRAM device and the LCDC,
SCY, SCX and LY registers; the fetcher uses LCDC only through its BgMap and
BgWinData flags. -/
structure Ppu where
  vram : Nat → Nat
  bgmap : Bool
  bgwindata : Bool
  scy : Nat
  scx : Nat
  ly : Nat

/-- VRAM device read at a local index; out-of-range indices return 0xFF per
the spec's device error convention. -/
def Ppu.vread (p : Ppu) (i : Nat) : Nat :=
  if i < 0x2000 then p.vram i % 256 else 0xFF

/-- Fetcher stage, from `enum Stage`. -/
inductive Stage where
  | ReadTile
  | ReadData0 (tile : Nat)
  | ReadData1 (tile : Nat) (data0 : Nat)
  | Push (row : List Pixel)
deriving DecidableEq

/-- The pixel FIFO, from `struct Fifo` (a vector of pixels). -/
abbrev Fifo := List Pixel

/-- BG tile fetcher state, from `struct Fetch`: current stage and the 8-bit
x-tile counter. -/
structure Fetch where
  stage : Stage
  xpos : Nat
deriving DecidableEq

/-- One fetch-cycle of `Stage::exec`, returning the next stage, the new
x-position and the new FIFO contents.  All machine-integer arithmetic is
taken modulo its width: `scy.wrapping_add(ly)` and the `u8` sum `scx/8 +
xpos` modulo 256, the signed tile index as a two's-complement `i16` cast to
`u16`, and the tile-address sum modulo 65536. -/
def Stage.exec (ppu : Ppu) (xpos : Nat) (fifo : Fifo) : Stage → Stage × Nat × Fifo
  | .ReadTile =>
    let base := if ppu.bgmap then 0x1c00 else 0x1800
    let ypos := ((ppu.scy + ppu.ly) % 256) / 8
    let xidx := ((ppu.scx / 8 + xpos) % 256) &&& 0x1f
    let idx := base + 32 * ypos + xidx
    let xpos1 := xpos + 1
    let tid := ppu.vread idx
    let yoff := ((ppu.scy + ppu.ly) % 256) % 8
    let tile :=
      if ppu.bgwindata then
        16 * tid + 2 * yoff
      else
        (0x0800 +
          Int.toNat ((16 * (if tid < 128 then (tid : Int) else (tid : Int) - 256)) % 65536)
          + 2 * yoff) % 65536
    (.ReadData0 tile, xpos1, fifo)
  | .ReadData0 tile => (.ReadData1 tile (ppu.vread tile), xpos, fifo)
  | .ReadData1 tile data0 =>
    (.Push (TileRow.ofBytes data0 (ppu.vread (tile + 1))), xpos, fifo)
  | .Push row =>
    if fifo.length ≤ 8 then (.ReadTile, xpos, fifo ++ row)
    else (.Push row, xpos, fifo)

/-- One call of `Fetch::exec`: take the stage, run it, store the results. -/
def Fetch.exec (f : Fetch) (fifo : Fifo) (ppu : Ppu) : Fetch × Fifo :=
  let r := Stage.exec ppu f.xpos fifo f.stage
  ({ stage := r.1, xpos := r.2.1 }, r.2.2)

/-- The fetcher and FIFO after `n` calls of `Fetch::exec` from their
`Default` states (stage `ReadTile`, x-position 0, empty FIFO), with an
arbitrary scanline configuration supplied at each call. -/
def fetchIter (ppus : Nat → Ppu) : Nat → Fetch × Fifo
  | 0 => ({ stage := .ReadTile, xpos := 0 }, [])
  | n + 1 =>
    let s := fetchIter ppus n
    s.1.exec s.2 (ppus n)

/-! ## Read-only device wrapper

Translated from `core/src/dev/readonly.rs`.  The `Device` capability comes
from the external `remus` crate; it is modelled from the spec as the record
of the four byte-level operations over a device state type. -/

/-- The byte-addressable device capability.
Modelled from the spec: length, index membership, byte read, byte write. -/
structure Device (σ : Type) where
  len : σ → Nat
  holds : σ → Nat → Bool
  read : σ → Nat → Nat
  write : σ → Nat → Nat → σ

/-- `ReadOnly::contains`: forwards to the wrapped device. -/
def ReadOnly.holds (d : Device σ) (s : σ) (i : Nat) : Bool :=
  d.holds s i

/-- `ReadOnly::len`: forwards to the wrapped device. -/
def ReadOnly.len (d : Device σ) (s : σ) : Nat :=
  d.len s

/-- `ReadOnly::read`: forwards to the wrapped device. -/
def ReadOnly.read (d : Device σ) (s : σ) (i : Nat) : Nat :=
  d.read s i

/-- `ReadOnly::write`: logs a warning and leaves the device untouched. -/
def ReadOnly.write (_ : Device σ) (s : σ) (_ _ : Nat) : σ :=
  s

/-- Apply a finite sequence of `ReadOnly::write` calls, one `(index, value)`
pair per call. -/
def ReadOnly.writes (d : Device σ) (s : σ) : List (Nat × Nat) → σ
  | [] => s
  | op :: ops => ReadOnly.writes d (ReadOnly.write d s op.1 op.2) ops

/-! ## Concrete instances used by witnesses -/

/-- A plain byte store, the simplest bus instance. -/
abbrev ByteStore := Nat → Nat

/-- Read a byte store. -/
def bsRead (s : ByteStore) (a : Nat) : Nat := s a

/-- Write a byte store. -/
def bsWrite (s : ByteStore) (a v : Nat) : ByteStore :=
  fun j => if j = a then v % 256 else s j

/-- A register file with all registers zero except the given PC and SP. -/
def mkRegs (pc sp : Nat) : Registers :=
  ⟨0, 0, 0, 0, 0, 0, 0, 0, sp, pc⟩

/-- An instruction whose single micro-op does nothing. -/
def nopInst : Inst ByteStore :=
  .mk fun c => (c, none)

/-- A CPU core over a byte store, all registers zero except PC and SP. -/
def mkCore (pc sp : Nat) (bus : ByteStore) : Core ByteStore :=
  { regs := mkRegs pc sp, bus := bus, ime := .Disabled, status := .Enabled,
    halt_bug := false }

/-! ## C2: tile-row pixel decode -/

/-- C2: the code decodes the tile-data byte pair 0xFF, 0x00 to eight pixels
of colour C2, not the eight C1 pixels the claim requires: `TileRow::from`
uses `bytes[0]` (the low byte, data0) as the high colour bit and `bytes[1]`
(the high byte, data1) as the low bit, and emits the row from bit 0 up
instead of from bit 7 down. -/
theorem c2_tile_decode_diverges :
    TileRow.ofBytes 0xff 0x00 = List.replicate 8 ⟨.C2, .BgWin⟩
    ∧ TileRow.ofBytes 0xff 0x00 ≠ List.replicate 8 ⟨.C1, .BgWin⟩ := by
  decide

/-! ## C5: F-register low nibble -/

/-- C5: writing 0x00FF through the 16-bit AF paired view stores 0xFF into F,
whose low nibble is then 0xF, not zero: the `af` setter copies the whole low
byte into F without masking. -/
theorem c5_af_low_nibble_violated (r : Registers) :
    (r.afSet 0x00ff).f = 0xff ∧ (r.afSet 0x00ff).f % 16 = 15 := by
  have h : (r.afSet 0x00ff).f = 0xff := rfl
  exact ⟨h, by rw [h]⟩

/-! ## C7: read-only wrapper -/

/-- C7: after any finite sequence of `ReadOnly::write` calls, `ReadOnly`
reads, length and membership still answer from the wrapped device in its
initial state: writes never mutate observable state, while read, len and
contains forward to the wrapped device. -/
theorem c7_readonly_never_mutates (σ : Type) (d : Device σ) (s : σ)
    (ops : List (Nat × Nat)) (i : Nat) :
    ReadOnly.read d (ReadOnly.writes d s ops) i = d.read s i
    ∧ ReadOnly.len d (ReadOnly.writes d s ops) = d.len s
    ∧ ReadOnly.holds d (ReadOnly.writes d s ops) i = d.holds s i := by
  have hkeep : ∀ t : σ, ReadOnly.writes d t ops = t := by
    induction ops with
    | nil => intro t; rfl
    | cons op ops ih => intro t; simpa [ReadOnly.writes, ReadOnly.write] using ih t
  rw [hkeep s]
  exact ⟨rfl, rfl, rfl⟩

/-! ## C10: PC and SP wraparound -/

/-- C10: all PC and SP arithmetic in fetchbyte, fetchword, pushword and
popword wraps modulo 2^16; in particular fetching a byte at PC 0xFFFF
leaves PC 0x0000, and pushing a word with SP 0x0000 writes the high byte at
0xFFFF and the low byte at 0xFFFE, leaving SP 0xFFFE. -/
theorem c10_wraparound :
    (∀ (β : Type) (rd : β → Nat → Nat) (wr : β → Nat → Nat → β) (c : Core β) (w : Nat),
        (fetchbyte rd c).2.regs.pc = (c.regs.pc + 1) % 65536
        ∧ (fetchword rd c).2.regs.pc = (c.regs.pc + 2) % 65536
        ∧ (popword rd c).2.regs.sp = (c.regs.sp + 2) % 65536
        ∧ (pushword wr c w).regs.sp = (c.regs.sp + 65534) % 65536
        ∧ (pushword wr c w).bus
            = wr (wr c.bus ((c.regs.sp + 65535) % 65536) (w / 256))
                ((c.regs.sp + 65534) % 65536) (w % 256))
    ∧ (fetchbyte bsRead (mkCore 0xffff 0 (fun _ => 0x34))).2.regs.pc = 0x0000
    ∧ (pushword bsWrite (mkCore 0 0 (fun _ => 0)) 0xabcd).regs.sp = 0xfffe
    ∧ (pushword bsWrite (mkCore 0 0 (fun _ => 0)) 0xabcd).bus 0xffff = 0xab
    ∧ (pushword bsWrite (mkCore 0 0 (fun _ => 0)) 0xabcd).bus 0xfffe = 0xcd := by
  refine ⟨?_, by decide, by decide, by decide, by decide⟩
  intro β rd wr c w
  refine ⟨rfl, ?_, ?_, ?_, ?_⟩
  · show ((c.regs.pc + 1) % 65536 + 1) % 65536 = (c.regs.pc + 2) % 65536
    omega
  · show ((c.regs.sp + 1) % 65536 + 1) % 65536 = (c.regs.sp + 2) % 65536
    omega
  · show ((c.regs.sp + 65535) % 65536 + 65535) % 65536 = (c.regs.sp + 65534) % 65536
    omega
  · show wr (wr c.bus ((c.regs.sp + 65535) % 65536) (w / 256))
        (((c.regs.sp + 65535) % 65536 + 65535) % 65536) (w % 256) = _
    rw [show ((c.regs.sp + 65535) % 65536 + 65535) % 65536 = (c.regs.sp + 65534) % 65536
      from by omega]

/-! ## C6: halt-bug fetch -/

/-- C6: when the halt-bug flag is set at the start of a Fetch transition,
the opcode decoded is the byte at PC, PC is unchanged by the fetch
(including across 0xFFFF wraparound), and the flag is cleared. -/
theorem c6_halt_bug_fetch (β : Type) (rd : β → Nat → Nat) (inew : Nat → Inst β)
    (c : Cpu β) (hs : c.state = State.Fetch) (hb : c.core.halt_bug = true)
    (hpc : c.core.regs.pc < 65536) :
    (fetchStep rd inew c).core.regs.pc = c.core.regs.pc
    ∧ (fetchStep rd inew c).core.halt_bug = false
    ∧ (fetchStep rd inew c).state = State.Execute (inew (rd c.core.bus c.core.regs.pc)) := by
  rcases c with ⟨core, pic, state⟩
  subst hs
  rcases core with ⟨regs, bus, ime, status, hbug⟩
  simp only at hb hpc
  subst hb
  cases ime <;>
    refine ⟨?_, ?_, ?_⟩ <;>
    simp [fetchStep, fetchbyte] <;>
    omega

/-- Witness for C6 at PC = 0xFFFF, where the fetch wraps PC to 0 and the
rollback restores 0xFFFF. -/
theorem c6_halt_bug_fetch_witness :
    (fetchStep bsRead (fun _ => nopInst)
        { core := { mkCore 0xffff 0 (fun _ => 0) with halt_bug := true },
          pic := ⟨0, 0⟩, state := State.Fetch }).core.regs.pc = 0xffff
    ∧ (fetchStep bsRead (fun _ => nopInst)
        { core := { mkCore 0xffff 0 (fun _ => 0) with halt_bug := true },
          pic := ⟨0, 0⟩, state := State.Fetch }).core.halt_bug = false := by
  have h := c6_halt_bug_fetch ByteStore bsRead (fun _ => nopInst)
    { core := { mkCore 0xffff 0 (fun _ => 0) with halt_bug := true },
      pic := ⟨0, 0⟩, state := State.Fetch } rfl rfl (by decide)
  exact ⟨h.1, h.2.1⟩

/-! ## C4: stack round trip -/

/-- C4: pushword then popword returns the pushed word and restores SP, for
every word and every starting SP, over any bus that returns the two pushed
bytes at the two pushed addresses; moreover pushword writes the high byte
at SP-1 and the low byte at SP-2 (mod 2^16), the little-endian layout. -/
theorem c4_push_pop_round_trip (β : Type) (rd : β → Nat → Nat) (wr : β → Nat → Nat → β)
    (c : Core β) (w : Nat) (_hw : w < 65536) (hsp : c.regs.sp < 65536)
    (h1 : rd (pushword wr c w).bus ((c.regs.sp + 65534) % 65536) = w % 256)
    (h2 : rd (pushword wr c w).bus ((c.regs.sp + 65535) % 65536) = w / 256) :
    (popword rd (pushword wr c w)).1 = w
    ∧ (popword rd (pushword wr c w)).2.regs.sp = c.regs.sp
    ∧ (pushword wr c w).bus
        = wr (wr c.bus ((c.regs.sp + 65535) % 65536) (w / 256))
            ((c.regs.sp + 65534) % 65536) (w % 256) := by
  have hsp2 : (pushword wr c w).regs.sp = (c.regs.sp + 65534) % 65536 := by
    show ((c.regs.sp + 65535) % 65536 + 65535) % 65536 = _
    omega
  have haddr : ((c.regs.sp + 65534) % 65536 + 1) % 65536 = (c.regs.sp + 65535) % 65536 := by
    omega
  refine ⟨?_, ?_, ?_⟩
  · show rd (pushword wr c w).bus (pushword wr c w).regs.sp
        + 256 * rd (pushword wr c w).bus (((pushword wr c w).regs.sp + 1) % 65536) = w
    rw [hsp2, haddr, h1, h2]
    omega
  · show (((pushword wr c w).regs.sp + 1) % 65536 + 1) % 65536 = c.regs.sp
    rw [hsp2, haddr]
    omega
  · show wr (wr c.bus ((c.regs.sp + 65535) % 65536) (w / 256))
        (((c.regs.sp + 65535) % 65536 + 65535) % 65536) (w % 256) = _
    rw [show ((c.regs.sp + 65535) % 65536 + 65535) % 65536 = (c.regs.sp + 65534) % 65536
      from by omega]

/-- Witness for C4 at SP = 0 (the wraparound case) with word 0x1234 on a
plain byte store. -/
theorem c4_push_pop_round_trip_witness :
    (popword bsRead (pushword bsWrite (mkCore 0 0 (fun _ => 0)) 0x1234)).1 = 0x1234
    ∧ (popword bsRead (pushword bsWrite (mkCore 0 0 (fun _ => 0)) 0x1234)).2.regs.sp = 0 := by
  have h := c4_push_pop_round_trip ByteStore bsRead bsWrite (mkCore 0 0 (fun _ => 0))
    0x1234 (by decide) (by decide) (by decide) (by decide)
  exact ⟨h.1, h.2.1⟩

/-! ## C3: interrupt sampling boundary -/

/-- A nonzero number has its lowest-set-bit position set. -/
theorem lowBit_testBit (m : Nat) (h : m ≠ 0) : m.testBit (lowBit m) = true := by
  induction m using Nat.strong_induction_on with
  | _ m ih =>
    rw [lowBit]
    split
    · exact absurd (by assumption) h
    · split
      · next h1 => simp [Nat.testBit_zero, h1]
      · next h0 h1 =>
        have hm2 : m / 2 ≠ 0 := by omega
        have := ih (m / 2) (by omega) hm2
        simpa [Nat.testBit_succ] using this

/-- The fetch arm never touches the PIC. -/
theorem fetchStep_pic (rd : β → Nat → Nat) (inew : Nat → Inst β) (c : Cpu β) :
    (fetchStep rd inew c).pic = c.pic := by
  rcases c with ⟨core, pic, state⟩
  cases state <;> rfl

/-- The execute arm never touches the PIC. -/
theorem execStep_pic (c : Cpu β) :
    (execStep c).pic = c.pic := by
  rcases c with ⟨core, pic, state⟩
  cases state <;> rfl

/-- C3: one cycle changes the PIC exactly when the state is Done, IME is
Enabled, and `IE & IF` is nonzero; in that case the Done arm acknowledges
the lowest pending source, clearing its IF bit, and enters Execute of the
interrupt-service instruction; while the state is Execute, the PIC is never
touched. -/
theorem c3_interrupt_boundary (β : Type) (rd : β → Nat → Nat)
    (inew iint : Nat → Inst β) (c : Cpu β) :
    ((cycle rd inew iint c).pic ≠ c.pic
      ↔ c.state = State.Done ∧ c.core.ime = Ime.Enabled ∧ c.pic.ie &&& c.pic.iflag ≠ 0)
    ∧ (c.state = State.Done → c.core.ime = Ime.Enabled → c.pic.ie &&& c.pic.iflag ≠ 0 →
        (doneStep iint c).state
            = State.Execute (iint (lowBit (c.pic.ie &&& c.pic.iflag)))
        ∧ (cycle rd inew iint c).pic.iflag
            = c.pic.iflag - 2 ^ lowBit (c.pic.ie &&& c.pic.iflag))
    ∧ (∀ i, c.state = State.Execute i → (cycle rd inew iint c).pic = c.pic) := by
  have hpic : (cycle rd inew iint c).pic = (doneStep iint c).pic := by
    rw [cycle, execStep_pic, fetchStep_pic]
  rcases c with ⟨⟨regs, bus, ime, status, hbug⟩, pic, state⟩
  refine ⟨?_, ?_, ?_⟩
  · rw [hpic]
    cases state with
    | Fetch => simp [doneStep]
    | Execute inst => simp [doneStep]
    | Done =>
      cases ime with
      | Disabled => simp [doneStep]
      | WillEnable => simp [doneStep]
      | Enabled =>
        by_cases hz : pic.ie &&& pic.iflag = 0
        · simp [doneStep, Pic.int, hz]
        · have hn := lowBit_testBit _ hz
          rw [Nat.testBit_land] at hn
          have htb : pic.iflag.testBit (lowBit (pic.ie &&& pic.iflag)) = true := by
            simp only [Bool.and_eq_true] at hn
            exact hn.2
          have hge : 2 ^ lowBit (pic.ie &&& pic.iflag) ≤ pic.iflag :=
            Nat.testBit_implies_ge htb
          have hpos : 0 < 2 ^ lowBit (pic.ie &&& pic.iflag) := Nat.two_pow_pos _
          simp [doneStep, Pic.int, hz, Pic.ack, htb]
          intro heq
          exact absurd (congrArg Pic.iflag heq) (by simp; omega)
  · intro h1 h2 h3
    subst h1
    subst h2
    have hn := lowBit_testBit _ h3
    rw [Nat.testBit_land] at hn
    have htb : pic.iflag.testBit (lowBit (pic.ie &&& pic.iflag)) = true := by
      simp only [Bool.and_eq_true] at hn
      exact hn.2
    refine ⟨?_, ?_⟩
    · simp [doneStep, Pic.int, h3]
    · rw [hpic]
      simp [doneStep, Pic.int, h3, Pic.ack, htb]
  · intro i h
    rw [hpic]
    subst h
    rfl

/-- A CPU in Done state with IME enabled and IE = IF = 1. -/
def cpu3done : Cpu ByteStore :=
  ⟨{ mkCore 0 0 (fun _ => 0) with ime := .Enabled }, ⟨1, 1⟩, State.Done⟩

/-- Witness for C3: in Done state with IME enabled and IE = IF = 1, the
cycle does change the PIC. -/
theorem c3_interrupt_boundary_witness :
    (cycle bsRead (fun _ => nopInst) (fun _ => nopInst) cpu3done).pic ≠ cpu3done.pic :=
  (c3_interrupt_boundary ByteStore bsRead (fun _ => nopInst) (fun _ => nopInst)
      cpu3done).1.mpr ⟨rfl, rfl, by decide⟩

/-! ## C9: fetcher counter safety -/

/-- The inductive invariant of the fetch pipeline: the x-position counts the
tile rows fetched so far, the FIFO holds eight pixels per completed row,
and backpressure keeps both small. -/
def FetchInv : Fetch × Fifo → Prop := fun s =>
  match s.1.stage with
  | .ReadTile => 8 * s.1.xpos = s.2.length ∧ s.1.xpos ≤ 2
  | .Push row => row.length = 8 ∧ 8 * s.1.xpos = s.2.length + 8 ∧ s.1.xpos ≤ 3
  | _ => 8 * s.1.xpos = s.2.length + 8 ∧ s.1.xpos ≤ 3

/-- A decoded tile row always holds eight pixels. -/
theorem tileRow_length (d0 d1 : Nat) : (TileRow.ofBytes d0 d1).length = 8 := by
  simp [TileRow.ofBytes]

/-- The invariant is preserved by every fetch-cycle, whatever the scanline
configuration. -/
theorem fetchInv_step (ppu : Ppu) (s : Fetch × Fifo) (h : FetchInv s) :
    FetchInv (s.1.exec s.2 ppu) := by
  rcases s with ⟨⟨st, x⟩, q⟩
  cases st with
  | ReadTile =>
    simp only [FetchInv, Fetch.exec, Stage.exec] at h ⊢
    omega
  | ReadData0 tile =>
    simp only [FetchInv, Fetch.exec, Stage.exec] at h ⊢
    omega
  | ReadData1 tile data0 =>
    simp only [FetchInv, Fetch.exec, Stage.exec] at h ⊢
    refine ⟨tileRow_length _ _, h.1, h.2⟩
  | Push row =>
    simp only [FetchInv, Fetch.exec, Stage.exec] at h ⊢
    by_cases hq : q.length ≤ 8
    · simp only [if_pos hq, List.length_append]
      omega
    · simp only [if_neg hq]
      exact h

/-- Every state reachable by the fetcher satisfies the invariant. -/
theorem fetchIter_inv (ppus : Nat → Ppu) (n : Nat) : FetchInv (fetchIter ppus n) := by
  induction n with
  | zero => exact ⟨rfl, Nat.zero_le 2⟩
  | succ n ih => exact fetchInv_step (ppus n) _ ih

/-- C9: over any number of fetch-cycles from the reset fetcher state, the
x-position stays at most 3; in particular whenever the stage is ReadTile —
the stage whose execution increments the 8-bit counter — the counter is
strictly below 255, so the increment cannot overflow. -/
theorem c9_xpos_no_overflow (ppus : Nat → Ppu) (n : Nat) :
    (fetchIter ppus n).1.xpos ≤ 3
    ∧ ((fetchIter ppus n).1.stage = Stage.ReadTile → (fetchIter ppus n).1.xpos < 255) := by
  have h := fetchIter_inv ppus n
  rcases hE : fetchIter ppus n with ⟨⟨st, x⟩, q⟩
  rw [hE] at h
  cases st <;> simp only [FetchInv] at h <;> simp <;> omega

/-- Witness for C9 after four fetch-cycles, when the stage is back at
ReadTile. -/
theorem c9_xpos_no_overflow_witness :
    (fetchIter (fun _ => ⟨fun _ => 0, false, false, 0, 0, 0⟩) 4).1.xpos < 255 :=
  (c9_xpos_no_overflow (fun _ => ⟨fun _ => 0, false, false, 0, 0, 0⟩) 4).2 (by decide)

/-! ## C8: work-RAM echo -/

/-- A bus write in the 0xC000 window lands in the work-RAM store and nowhere
else. -/
theorem busWrite_wram_main (s : DmgState) (i v : Nat) (h : i < 0x2000) :
    GameBoy.write s (0xc000 + i) v = { s with wram := setb s.wram i v } := by
  have e5 : 0xc000 + i - 0xc000 = i := by omega
  simp only [GameBoy.write, dmgEntries, busWriteGo, devHolds, devSize, e5]
  rw [if_neg (show ¬(0x0000 ≤ 0xc000 + i ∧ 0xc000 + i - 0x0000 < 0x0100) from
        fun hc => absurd hc.2 (by omega)),
      if_neg (show ¬(0x0000 ≤ 0xc000 + i ∧ 0xc000 + i - 0x0000 < 0x8000) from
        fun hc => absurd hc.2 (by omega)),
      if_neg (show ¬(0x8000 ≤ 0xc000 + i ∧ 0xc000 + i - 0x8000 < 0x2000) from
        fun hc => absurd hc.2 (by omega)),
      if_neg (show ¬(0xa000 ≤ 0xc000 + i ∧ 0xc000 + i - 0xa000 < 0x2000) from
        fun hc => absurd hc.2 (by omega)),
      if_pos (show 0xc000 ≤ 0xc000 + i ∧ i < 0x2000 from ⟨by omega, h⟩),
      if_neg (show ¬(0xe000 ≤ 0xc000 + i ∧ 0xc000 + i - 0xe000 < 0x2000) from
        fun hc => absurd hc.1 (by omega)),
      if_neg (show ¬(0xfe00 ≤ 0xc000 + i ∧ 0xc000 + i - 0xfe00 < 0x00a0) from
        fun hc => absurd hc.1 (by omega)),
      if_neg (show ¬(0xff00 ≤ 0xc000 + i ∧ ioHolds (0xc000 + i - 0xff00) = true) from
        fun hc => absurd hc.1 (by omega)),
      if_neg (show ¬(0xff80 ≤ 0xc000 + i ∧ 0xc000 + i - 0xff80 < 0x007f) from
        fun hc => absurd hc.1 (by omega)),
      if_neg (show ¬(0xffff ≤ 0xc000 + i ∧ 0xc000 + i - 0xffff < 0x0001) from
        fun hc => absurd hc.1 (by omega))]
  rfl

/-- A bus write in the 0xE000 echo window lands in the same work-RAM store
and nowhere else. -/
theorem busWrite_wram_echo (s : DmgState) (i v : Nat) (h : i < 0x1e00) :
    GameBoy.write s (0xe000 + i) v = { s with wram := setb s.wram i v } := by
  have e6 : 0xe000 + i - 0xe000 = i := by omega
  simp only [GameBoy.write, dmgEntries, busWriteGo, devHolds, devSize, e6]
  rw [if_neg (show ¬(0x0000 ≤ 0xe000 + i ∧ 0xe000 + i - 0x0000 < 0x0100) from
        fun hc => absurd hc.2 (by omega)),
      if_neg (show ¬(0x0000 ≤ 0xe000 + i ∧ 0xe000 + i - 0x0000 < 0x8000) from
        fun hc => absurd hc.2 (by omega)),
      if_neg (show ¬(0x8000 ≤ 0xe000 + i ∧ 0xe000 + i - 0x8000 < 0x2000) from
        fun hc => absurd hc.2 (by omega)),
      if_neg (show ¬(0xa000 ≤ 0xe000 + i ∧ 0xe000 + i - 0xa000 < 0x2000) from
        fun hc => absurd hc.2 (by omega)),
      if_neg (show ¬(0xc000 ≤ 0xe000 + i ∧ 0xe000 + i - 0xc000 < 0x2000) from
        fun hc => absurd hc.2 (by omega)),
      if_pos (show 0xe000 ≤ 0xe000 + i ∧ i < 0x2000 from ⟨by omega, by omega⟩),
      if_neg (show ¬(0xfe00 ≤ 0xe000 + i ∧ 0xe000 + i - 0xfe00 < 0x00a0) from
        fun hc => absurd hc.1 (by omega)),
      if_neg (show ¬(0xff00 ≤ 0xe000 + i ∧ ioHolds (0xe000 + i - 0xff00) = true) from
        fun hc => absurd hc.1 (by omega)),
      if_neg (show ¬(0xff80 ≤ 0xe000 + i ∧ 0xe000 + i - 0xff80 < 0x007f) from
        fun hc => absurd hc.1 (by omega)),
      if_neg (show ¬(0xffff ≤ 0xe000 + i ∧ 0xe000 + i - 0xffff < 0x0001) from
        fun hc => absurd hc.1 (by omega))]
  rfl

/-- A bus read in the 0xC000 window answers from the work-RAM store. -/
theorem busRead_wram_main (s : DmgState) (i : Nat) (h : i < 0x2000) :
    GameBoy.read s (0xc000 + i) = s.wram i := by
  have e5 : 0xc000 + i - 0xc000 = i := by omega
  simp only [GameBoy.read, dmgEntries, busReadGo, devHolds, devSize, e5]
  rw [if_neg (show ¬(0xffff ≤ 0xc000 + i ∧ 0xc000 + i - 0xffff < 0x0001) from
        fun hc => absurd hc.1 (by omega)),
      if_neg (show ¬(0xff80 ≤ 0xc000 + i ∧ 0xc000 + i - 0xff80 < 0x007f) from
        fun hc => absurd hc.1 (by omega)),
      if_neg (show ¬(0xff00 ≤ 0xc000 + i ∧ ioHolds (0xc000 + i - 0xff00) = true) from
        fun hc => absurd hc.1 (by omega)),
      if_neg (show ¬(0xfe00 ≤ 0xc000 + i ∧ 0xc000 + i - 0xfe00 < 0x00a0) from
        fun hc => absurd hc.1 (by omega)),
      if_neg (show ¬(0xe000 ≤ 0xc000 + i ∧ 0xc000 + i - 0xe000 < 0x2000) from
        fun hc => absurd hc.1 (by omega)),
      if_pos (show 0xc000 ≤ 0xc000 + i ∧ i < 0x2000 from ⟨by omega, h⟩)]
  rfl

/-- A bus read in the 0xE000 echo window answers from the same work-RAM
store. -/
theorem busRead_wram_echo (s : DmgState) (i : Nat) (h : i < 0x1e00) :
    GameBoy.read s (0xe000 + i) = s.wram i := by
  have e6 : 0xe000 + i - 0xe000 = i := by omega
  simp only [GameBoy.read, dmgEntries, busReadGo, devHolds, devSize, e6]
  rw [if_neg (show ¬(0xffff ≤ 0xe000 + i ∧ 0xe000 + i - 0xffff < 0x0001) from
        fun hc => absurd hc.1 (by omega)),
      if_neg (show ¬(0xff80 ≤ 0xe000 + i ∧ 0xe000 + i - 0xff80 < 0x007f) from
        fun hc => absurd hc.1 (by omega)),
      if_neg (show ¬(0xff00 ≤ 0xe000 + i ∧ ioHolds (0xe000 + i - 0xff00) = true) from
        fun hc => absurd hc.1 (by omega)),
      if_neg (show ¬(0xfe00 ≤ 0xe000 + i ∧ 0xe000 + i - 0xfe00 < 0x00a0) from
        fun hc => absurd hc.1 (by omega)),
      if_pos (show 0xe000 ≤ 0xe000 + i ∧ i < 0x2000 from ⟨by omega, by omega⟩)]
  rfl

/-- C8: for every machine state, offset up to 0x1DFF and byte value, a write
to 0xC000+i is read back at 0xE000+i and a write to 0xE000+i is read back
at 0xC000+i: both windows share the single work-RAM backing store. -/
theorem c8_wram_echo (s : DmgState) (i v : Nat) (hi : i < 0x1e00) (hv : v < 256) :
    GameBoy.read (GameBoy.write s (0xc000 + i) v) (0xe000 + i) = v
    ∧ GameBoy.read (GameBoy.write s (0xe000 + i) v) (0xc000 + i) = v := by
  rw [busWrite_wram_main s i v (by omega), busRead_wram_echo _ i hi,
    busWrite_wram_echo s i v hi, busRead_wram_main _ i (by omega)]
  simp [setb, Nat.mod_eq_of_lt hv]

/-- Witness for C8: the spec scenario, write 0x77 at 0xFDFF and read it back
at 0xDDFF from the reset machine. -/
theorem c8_wram_echo_witness :
    GameBoy.read (GameBoy.write resetState (0xe000 + 0x1dff) 0x77) (0xc000 + 0x1dff) = 0x77 :=
  (c8_wram_echo resetState 0x1dff 0x77 (by omega) (by omega)).2

/-! ## C1: boot overlay scenario -/

/-- C1 fails on the code: after reset, writing 0xAA to 0x0040 and reading
0x0040 back yields 0xAA, not 0xC3 — the boot memory has no read-only
wrapper, so the fanned-out write lands in it too, and the cartridge ROM,
mapped after the overlay, wins the read; moreover the embedded boot ROM
byte at offset 0x40 is 0x3E, not 0xC3. -/
theorem c1_boot_overlay_counterexample :
    GameBoy.read (GameBoy.write resetState 0x0040 0xaa) 0x0040 ≠ 0xc3
    ∧ BOOTROM.getD 0x40 0 ≠ 0xc3 := by
  decide

/-- C1 amended: writing 0xAA to 0x0040 stores 0xAA into cartridge ROM local
0x0040 and into the boot store (writes fan out, nothing absorbs them); the
bus read of 0x0040 returns 0xAA already before touching 0xFF50, and writing
1 to 0xFF50 merely sets the boot-bank register — no overlay is unmapped —
so the read afterwards still returns 0xAA. -/
theorem c1_boot_overlay_amended :
    (GameBoy.write resetState 0x0040 0xaa).rom 0x40 = 0xaa
    ∧ (GameBoy.write resetState 0x0040 0xaa).boot 0x40 = 0xaa
    ∧ GameBoy.read (GameBoy.write resetState 0x0040 0xaa) 0x0040 = 0xaa
    ∧ GameBoy.read
        (GameBoy.write (GameBoy.write resetState 0x0040 0xaa) 0xff50 0x01) 0x0040 = 0xaa
    ∧ (GameBoy.write (GameBoy.write resetState 0x0040 0xaa) 0xff50 0x01).bank 0 = 1 := by
  decide

end GB
